import Mathlib

/-!
Shallow embedding of the Wizard card-game engine (`src/server/game/game.py`,
class `WizardGame`).  Python dictionaries keyed by player name are modelled
as association lists in roster order; the deck, a Python list consumed by
`pop()` from its end, is modelled as a Lean list consumed from its head
(i.e. the Lean list stores the Python list reversed, top of the deck first).
`random.shuffle` is modelled by passing the post-shuffle deck as an explicit
argument; a reachable game run only feeds permutations of the freshly built
deck.  Each mutating method returns the state as left behind by the Python
code together with `none` on success or the raised error: Python `assert`
failures leave every mutation made before the failing assert in place, and
the embedding reproduces exactly that.
-/

namespace Wizard

/-- Suits as in `WizardGame.SUITS`; `white` is the Python string WHITE used
for the two special card kinds. -/
inductive Suit where
  | blue | green | red | yellow | white
  deriving DecidableEq

/-- Card values as in `WizardGame.VALUES`: the integers 1..13 plus the two
special values. -/
inductive Rank where
  | num : Nat → Rank
  | wizard
  | jester
  deriving DecidableEq

/-- A card is the Python tuple `(suit, value)`. -/
abbrev Card := Suit × Rank

instance : Inhabited Suit := ⟨Suit.blue⟩
instance : Inhabited Rank := ⟨Rank.num 1⟩

/-- Python `card[1] > winning_card[1]`.  Both operands are integers whenever
the code reaches this comparison on cards of the built deck (Wizards have
returned early and Jesters are filtered out); on the remaining constructor
pairs Python would compare strings or raise, which no reachable call does,
and we pick the string-comparison result for the string/string case and
`false` elsewhere. -/
def rankGt : Rank → Rank → Bool
  | Rank.num a, Rank.num b => b < a
  | Rank.wizard, Rank.jester => true
  | _, _ => false

/-- Dictionary lookup `m[k]` returning `none` where Python raises `KeyError`. -/
def alookup {β : Type} : List (String × β) → String → Option β
  | [], _ => none
  | (k, v) :: rest, key => if k = key then some v else alookup rest key

/-- Dictionary update `m[k] = f m[k]` on an association list: rewrites every
entry whose key matches (keys are unique in every state the engine builds). -/
def updA {β : Type} (m : List (String × β)) (k : String) (f : β → β) :
    List (String × β) :=
  m.map (fun p => if p.1 = k then (p.1, f p.2) else p)

/-- Python dict comprehension `{player: v for player in players}`. -/
def initA {β : Type} (players : List String) (v : β) : List (String × β) :=
  players.map (fun p => (p, v))

/-- Sum of a numeric measure of the values of an association list. -/
def sumBy {β : Type} (m : List (String × β)) (f : β → Nat) : Nat :=
  (m.map (fun kv => f kv.2)).sum

/-- The four ordinary suits, `SUITS[:-1]`. -/
def ordinarySuits : List Suit := [Suit.blue, Suit.green, Suit.red, Suit.yellow]

/-- `WizardGame._create_deck`: 13 ordinary cards per ordinary suit followed by
four Wizard/Jester pairs; 60 cards in total, listed in append order. -/
def create_deck : List Card :=
  (ordinarySuits.flatMap (fun s => (List.range 13).map (fun v => (s, Rank.num (v + 1)))))
    ++ (List.range 4).flatMap (fun _ => [(Suit.white, Rank.wizard), (Suit.white, Rank.jester)])

/-- The errors raised by the engine.  Every Python `assert` message gets its
own constructor; `keyError` stands for the `KeyError` a Python dict lookup
raises on a missing key. -/
inductive GameErr where
  | invalidPlayerCount
  | roundLimitExceeded
  | invalidPlayer
  | invalidPrediction
  | duplicatePrediction
  | notPlayersTurn
  | cardNotInHand
  | mustFollowSuit
  | roundNotComplete
  | keyError
  deriving DecidableEq

/-- The mutable state of a `WizardGame` instance. -/
structure GameState where
  players : List String
  current_round : Nat
  trump_card : Option Card
  current_player : Option String
  scores : List (String × Int)
  predictions : List (String × Int)
  hands : List (String × List Card)
  tricks_won : List (String × Nat)
  current_trick : List Card
  deck : List Card
  deriving DecidableEq

/-- The state built by `WizardGame.__init__` once its player-count assert has
passed. -/
def wizardInit (players : List String) : GameState :=
  { players := players
    current_round := 0
    trump_card := none
    current_player := none
    scores := initA players 0
    predictions := []
    hands := initA players []
    tricks_won := initA players 0
    current_trick := []
    deck := create_deck }

/-- `WizardGame(players)`: the constructor asserts 3..6 players before any
attribute is assigned, so on failure no state exists at all. -/
def mkGame (players : List String) : Option GameState :=
  if 3 ≤ players.length ∧ players.length ≤ 6 then some (wizardInit players) else none

/-- Placeholder player name for out-of-range roster indexing, which no
reachable call performs. -/
def noPlayer : String := ""

/-- `WizardGame._deal_cards`, after the shuffle: one Python for-loop step per
player, assigning that player `current_round` consecutive pops from the deck. -/
def deal_cards (r : Nat) (hands : List (String × List Card)) (deck : List Card) :
    List String → List (String × List Card) × List Card
  | [] => (hands, deck)
  | p :: ps => deal_cards r (updA hands p (fun _ => deck.take r)) (deck.drop r) ps

/-- `WizardGame.start_round`.  The round counter is incremented before the
round-limit assert, exactly as in the source; `shuffled` is the deck as left
by `random.shuffle` on the freshly built 60-card deck. -/
def start_round (g : GameState) (shuffled : List Card) : GameState × Option GameErr :=
  let r := g.current_round + 1
  let maxRounds := 60 / g.players.length
  if maxRounds < r then
    ({ g with current_round := r }, some GameErr.roundLimitExceeded)
  else
    let dealt := deal_cards r (initA g.players []) shuffled g.players
    let td : Option Card × List Card :=
      if r < maxRounds then
        match dealt.2 with
        | [] => (none, [])
        | c :: rest => (some c, rest)
      else (g.trump_card, dealt.2)
    ({ g with
        current_round := r
        tricks_won := initA g.players 0
        predictions := []
        current_trick := []
        hands := dealt.1
        deck := td.2
        trump_card := td.1
        current_player := some (g.players.getD ((r - 1) % g.players.length) noPlayer) },
      none)

/-- `WizardGame.make_prediction`. -/
def make_prediction (g : GameState) (player : String) (tricks : Int) :
    GameState × Option GameErr :=
  if player ∉ g.players then (g, some GameErr.invalidPlayer)
  else if ¬ (0 ≤ tricks ∧ tricks ≤ (g.current_round : Int)) then
    (g, some GameErr.invalidPrediction)
  else if (alookup g.predictions player).isSome then
    (g, some GameErr.duplicatePrediction)
  else
    ({ g with predictions := g.predictions ++ [(player, tricks)] }, none)

/-- Python `card[0] == 'WHITE' and card[1] == 'WIZARD'`. -/
def isWizard (c : Card) : Bool := c.1 = Suit.white ∧ c.2 = Rank.wizard

/-- Python `card[0] == 'WHITE' and card[1] == 'JESTER'`. -/
def isJester (c : Card) : Bool := c.1 = Suit.white ∧ c.2 = Rank.jester

/-- Python `s == self.trump_card[0]`; `trump_card` is always set when a trick
is resolved during play, so the `none` arm is never reached there. -/
def isTrumpSuit (trump : Option Card) (s : Suit) : Bool :=
  match trump with
  | some t => s = t.1
  | none => false

/-- One iteration of the comparison loop in `_determine_trick_winner`:
the accumulator is the current `(winning_index, winning_card)`, `none` before
the first eligible card. -/
def pickStep (trump : Option Card) (acc : Option (Nat × Card)) (ic : Nat × Card) :
    Option (Nat × Card) :=
  match acc with
  | none => some ic
  | some wc =>
    if isTrumpSuit trump ic.2.1 ∧ ¬ isTrumpSuit trump wc.2.1 then some ic
    else if ic.2.1 = wc.2.1 ∧ rankGt ic.2.2 wc.2.2 then some ic
    else some wc

/-- `WizardGame._determine_trick_winner`: first Wizard wins, else an
all-Jester trick goes to `players[0]`, else the comparison loop runs over the
non-Jester cards.  The returned name is `self.players[winner_index]`, indexing
the roster by the position of the winning card inside the trick. -/
def determine_trick_winner (players : List String) (trump_card : Option Card)
    (trick : List Card) : String :=
  match trick.enum.filter (fun ic => isWizard ic.2) with
  | iw :: _ => players.getD iw.1 noPlayer
  | [] =>
    if trick.all (fun c => isJester c) then players.getD 0 noPlayer
    else
      match (trick.enum.filter (fun ic => ¬ isJester ic.2)).foldl (pickStep trump_card) none with
      | some w => players.getD w.1 noPlayer
      | none => players.getD 0 noPlayer

/-- `WizardGame.play_card`. -/
def play_card (g : GameState) (player : String) (card : Card) :
    GameState × Option GameErr :=
  if g.current_player ≠ some player then (g, some GameErr.notPlayersTurn)
  else
    let hand := (alookup g.hands player).getD []
    if card ∉ hand then (g, some GameErr.cardNotInHand)
    else
      let lead : Card := g.current_trick.headD default
      if g.current_trick ≠ [] ∧ card.1 ≠ Suit.white ∧ lead.1 ≠ Suit.white ∧
          (∃ c ∈ hand, c.1 = lead.1) ∧ card.1 ≠ lead.1 then
        (g, some GameErr.mustFollowSuit)
      else
        let hands := updA g.hands player (fun h => h.erase card)
        let trick := g.current_trick ++ [card]
        if trick.length = g.players.length then
          let winner := determine_trick_winner g.players g.trump_card trick
          ({ g with
              hands := hands
              current_trick := []
              tricks_won := updA g.tricks_won winner (fun n => n + 1)
              current_player := some winner }, none)
        else
          ({ g with
              hands := hands
              current_trick := trick
              current_player :=
                some (g.players.getD ((g.players.indexOf player + 1) % g.players.length)
                  noPlayer) }, none)

/-- The scoring for-loop of `calculate_round_scores`: processes the roster in
order, stopping with `keyError` at the first player missing from the
`predictions` (or `tricks_won`) dictionary, with all updates made before the
failure kept, exactly as a Python `KeyError` would leave them. -/
def scoreLoop (preds : List (String × Int)) (tw : List (String × Nat)) :
    List String → List (String × Int) → List (String × Int) × Option GameErr
  | [], scores => (scores, none)
  | p :: ps, scores =>
    match alookup preds p with
    | none => (scores, some GameErr.keyError)
    | some pred =>
      match alookup tw p with
      | none => (scores, some GameErr.keyError)
      | some won =>
        scoreLoop preds tw ps
          (updA scores p (fun s =>
            if pred = (won : Int) then s + 20 + 10 * (won : Int)
            else s - 10 * (((pred - (won : Int)).natAbs : Nat) : Int)))

/-- `WizardGame.calculate_round_scores`. -/
def calculate_round_scores (g : GameState) : GameState × Option GameErr :=
  if ¬ (g.hands.all (fun ph => ph.2.isEmpty)) then (g, some GameErr.roundNotComplete)
  else
    let res := scoreLoop g.predictions g.tricks_won g.players g.scores
    ({ g with scores := res.1 }, res.2)

/-- `WizardGame.is_round_complete`. -/
def is_round_complete (g : GameState) : Bool :=
  g.hands.all (fun ph => ph.2.isEmpty)

/-- `WizardGame.is_game_complete`. -/
def is_game_complete (g : GameState) : Bool :=
  g.current_round = 60 / g.players.length ∧ is_round_complete g

/-- Modelled from the spec: dealing that pops "one card per player, repeated
`roundNumber` times" — the round-robin interleaved consumption order the spec
ascribes to `_deal_cards`, written here only to compare it with the source's
per-player block dealing. -/
def deal_round_robin (players : List String) (r : Nat)
    (hands : List (String × List Card)) (deck : List Card) :
    List (String × List Card) × List Card :=
  (List.range r).foldl
    (fun acc _ =>
      players.foldl
        (fun acc2 p => (updA acc2.1 p (fun h => h ++ [acc2.2.headD default]), acc2.2.tail))
        acc)
    (hands, deck)

/-- One comparison step of trick resolution with no trump suit: only a
same-suit, strictly higher card replaces the running winner. -/
def pickStepNoTrump (acc : Option (Nat × Card)) (ic : Nat × Card) :
    Option (Nat × Card) :=
  match acc with
  | none => some ic
  | some wc => if ic.2.1 = wc.2.1 ∧ rankGt ic.2.2 wc.2.2 then some ic else some wc

/-- Modelled from the spec: trick resolution exactly "as if there were no
trump suit" — first Wizard wins, an all-Jester trick goes to position 0, and
otherwise Jesters are ignored and only same-suit rank comparison applies. -/
def determine_trick_winner_no_trump (players : List String) (trick : List Card) :
    String :=
  match trick.enum.filter (fun ic => isWizard ic.2) with
  | iw :: _ => players.getD iw.1 noPlayer
  | [] =>
    if trick.all (fun c => isJester c) then players.getD 0 noPlayer
    else
      match (trick.enum.filter (fun ic => ¬ isJester ic.2)).foldl pickStepNoTrump none with
      | some w => players.getD w.1 noPlayer
      | none => players.getD 0 noPlayer

/-- The states a `WizardGame` instance can be in: built by the constructor on
a roster of distinct names (the spec's "3–6 distinct player identifiers"
input contract) and then transformed by any sequence of engine calls with
arbitrary arguments, keeping the state each call leaves behind whether it
succeeds or raises.  A `start_round` step feeds an arbitrary permutation of
the fresh deck, modelling `random.shuffle`. -/
inductive Reachable : GameState → Prop where
  | create (players : List String) (g : GameState) (hnd : players.Nodup)
      (h : mkGame players = some g) : Reachable g
  | startRound (g : GameState) (d : List Card) (hp : List.Perm d create_deck)
      (h : Reachable g) : Reachable (start_round g d).1
  | makePrediction (g : GameState) (p : String) (t : Int) (h : Reachable g) :
      Reachable (make_prediction g p t).1
  | playCard (g : GameState) (p : String) (c : Card) (h : Reachable g) :
      Reachable (play_card g p c).1
  | calcScores (g : GameState) (h : Reachable g) :
      Reachable (calculate_round_scores g).1

/-- Whether roster position `i` has already contributed a card to the trick
in progress, when the trick was led by roster position `L` and holds `t`
cards: the contributors are the `t` positions `L, L+1, …` cyclically. -/
def playedInTrick (n L t i : Nat) : Bool :=
  (List.range t).any (fun j => (L + j) % n = i)

/-- Structural invariant of every reachable state, strong enough to carry the
per-player hand-length bookkeeping through a `play_card` step: inside a
round, a player's hand length plus the number of resolved tricks plus one if
the player has already fed the trick in progress equals the round number. -/
structure Inv (g : GameState) : Prop where
  pl_lb : 3 ≤ g.players.length
  pl_nd : g.players.Nodup
  hands_keys : g.hands.map Prod.fst = g.players
  tw_keys : g.tricks_won.map Prod.fst = g.players
  trick_lt : g.current_trick.length < g.players.length
  cp_mem : ∀ p, g.current_player = some p → p ∈ g.players
  hand_len : 1 ≤ g.current_round → g.current_round ≤ 60 / g.players.length →
    ∃ L, L < g.players.length ∧
      g.current_player =
        some (g.players.getD ((L + g.current_trick.length) % g.players.length) noPlayer) ∧
      ∀ i, i < g.players.length →
        ((alookup g.hands (g.players.getD i noPlayer)).getD []).length
          + sumBy g.tricks_won id
          + (if playedInTrick g.players.length L g.current_trick.length i then 1 else 0)
          = g.current_round

/-! ### Concrete runs used to exercise the engine -/

def alice : String := "Alice"
def bob : String := "Bob"
def carl : String := "Carl"

/-- A three-player roster. -/
def roster3 : List String := [alice, bob, carl]

/-- A six-player roster (maximum table; 60 / 6 = 10 rounds). -/
def roster6 : List String := ["Ann", "Ben", "Cal", "Dee", "Eli", "Fay"]

/-- Iterate `start_round` with the identity shuffle (the freshly built deck
itself, a permutation of itself), keeping the state of each call. -/
def iterStart (g : GameState) : Nat → GameState
  | 0 => g
  | n + 1 => (start_round (iterStart g n) create_deck).1

/-- The six-player game as built by the constructor. -/
def g6 : GameState := wizardInit roster6

/-- Cards placed on top of the deck for round 2 of the three-player run:
two for Alice, two for Bob, two for Carl, then the trump. -/
def c1top : List Card :=
  [(Suit.blue, Rank.num 2), (Suit.blue, Rank.num 3),
   (Suit.blue, Rank.num 13), (Suit.blue, Rank.num 12),
   (Suit.blue, Rank.num 4), (Suit.blue, Rank.num 5),
   (Suit.green, Rank.num 1)]

/-- A permutation of the fresh deck with `c1top` on top. -/
def c1shuffle2 : List Card := c1top ++ (c1top.foldl (fun d c => d.erase c) create_deck)

/-- Three-player run: round 1 started and skipped, round 2 started with
`c1shuffle2`; round 2 is led by Bob (`players[(2-1) % 3]`). -/
def c1g2 : GameState :=
  (start_round ((start_round (wizardInit roster3) create_deck).1) c1shuffle2).1

/-- Bob leads the trick with BLUE 13. -/
def c1p1 : GameState × Option GameErr := play_card c1g2 bob (Suit.blue, Rank.num 13)

/-- Carl follows with BLUE 4. -/
def c1p2 : GameState × Option GameErr := play_card c1p1.1 carl (Suit.blue, Rank.num 4)

/-- Alice completes the trick with BLUE 2. -/
def c1p3 : GameState × Option GameErr := play_card c1p2.1 alice (Suit.blue, Rank.num 2)

/-! ### Association-list lemmas -/

theorem alookup_cons {β : Type} (a : String) (b : β) (tl : List (String × β)) (key : String) :
    alookup ((a, b) :: tl) key = if a = key then some b else alookup tl key := rfl

theorem updA_cons {β : Type} (a : String) (b : β) (tl : List (String × β)) (k : String)
    (f : β → β) :
    updA ((a, b) :: tl) k f = (if a = k then (a, f b) else (a, b)) :: updA tl k f := by
  by_cases h : a = k
  · simp only [updA, List.map_cons, if_pos h]
  · simp only [updA, List.map_cons, if_neg h]

theorem initA_cons {β : Type} (a : String) (tl : List String) (v : β) :
    initA (a :: tl) v = (a, v) :: initA tl v := rfl

theorem sumBy_cons {β : Type} (a : String) (b : β) (tl : List (String × β)) (c : β → Nat) :
    sumBy ((a, b) :: tl) c = c b + sumBy tl c := rfl

theorem alookup_updA_self {β : Type} (m : List (String × β)) (k : String) (f : β → β) :
    alookup (updA m k f) k = (alookup m k).map f := by
  induction m with
  | nil => rfl
  | cons hd tl ih =>
    obtain ⟨a, b⟩ := hd
    rw [updA_cons]
    by_cases h : a = k
    · rw [if_pos h, alookup_cons, if_pos h, alookup_cons, if_pos h]
      rfl
    · rw [if_neg h, alookup_cons, if_neg h, alookup_cons, if_neg h]
      exact ih

theorem alookup_updA_ne {β : Type} (m : List (String × β)) (k q : String) (f : β → β)
    (hqk : q ≠ k) : alookup (updA m k f) q = alookup m q := by
  induction m with
  | nil => rfl
  | cons hd tl ih =>
    obtain ⟨a, b⟩ := hd
    rw [updA_cons]
    by_cases h : a = k
    · rw [if_pos h, alookup_cons, alookup_cons]
      by_cases hq : a = q
      · exact absurd (hq.symm.trans h) hqk
      · rw [if_neg hq, if_neg hq]
        exact ih
    · rw [if_neg h, alookup_cons, alookup_cons]
      by_cases hq : a = q
      · rw [if_pos hq, if_pos hq]
      · rw [if_neg hq, if_neg hq]
        exact ih

theorem keys_updA {β : Type} (m : List (String × β)) (k : String) (f : β → β) :
    (updA m k f).map Prod.fst = m.map Prod.fst := by
  induction m with
  | nil => rfl
  | cons hd tl ih =>
    obtain ⟨a, b⟩ := hd
    rw [updA_cons]
    by_cases h : a = k
    · rw [if_pos h, List.map_cons, List.map_cons, ih]
    · rw [if_neg h, List.map_cons, List.map_cons, ih]

theorem keys_initA {β : Type} (ps : List String) (v : β) :
    (initA ps v).map Prod.fst = ps := by
  induction ps with
  | nil => rfl
  | cons hd tl ih => rw [initA_cons, List.map_cons, ih]

theorem alookup_initA {β : Type} (ps : List String) (v : β) (p : String) (h : p ∈ ps) :
    alookup (initA ps v) p = some v := by
  induction ps with
  | nil => simp at h
  | cons hd tl ih =>
    rw [initA_cons, alookup_cons]
    by_cases hp : hd = p
    · rw [if_pos hp]
    · rw [if_neg hp]
      rcases List.mem_cons.mp h with h1 | h1
      · exact absurd h1.symm hp
      · exact ih h1

theorem alookup_isSome_iff_mem_keys {β : Type} (m : List (String × β)) (p : String) :
    (alookup m p).isSome = true ↔ p ∈ m.map Prod.fst := by
  induction m with
  | nil => simp [alookup]
  | cons hd tl ih =>
    obtain ⟨a, b⟩ := hd
    rw [alookup_cons, List.map_cons, List.mem_cons]
    by_cases h : a = p
    · simp [h]
    · rw [if_neg h, ih]
      constructor
      · exact Or.inr
      · rintro (h1 | h1)
        · exact absurd h1.symm h
        · exact h1

theorem updA_of_not_mem {β : Type} (m : List (String × β)) (k : String) (f : β → β)
    (h : k ∉ m.map Prod.fst) : updA m k f = m := by
  induction m with
  | nil => rfl
  | cons hd tl ih =>
    obtain ⟨a, b⟩ := hd
    rw [List.map_cons, List.mem_cons, not_or] at h
    rw [updA_cons, if_neg (fun he => h.1 he.symm), ih h.2]

theorem sumBy_updA {β : Type} (m : List (String × β)) (k : String) (f : β → β)
    (c : β → Nat) (v : β) (hnd : (m.map Prod.fst).Nodup) (hv : alookup m k = some v) :
    sumBy (updA m k f) c + c v = sumBy m c + c (f v) := by
  induction m with
  | nil => simp [alookup] at hv
  | cons hd tl ih =>
    obtain ⟨a, b⟩ := hd
    rw [List.map_cons, List.nodup_cons] at hnd
    rw [updA_cons]
    by_cases h : a = k
    · rw [alookup_cons, if_pos h] at hv
      obtain rfl : b = v := by injection hv
      rw [if_pos h, sumBy_cons, sumBy_cons,
        updA_of_not_mem tl k f (by rw [← h]; exact hnd.1)]
      omega
    · rw [alookup_cons, if_neg h] at hv
      have := ih hnd.2 hv
      rw [if_neg h, sumBy_cons, sumBy_cons]
      omega

theorem sumBy_initA_zero (ps : List String) : sumBy (initA ps 0) id = 0 := by
  induction ps with
  | nil => rfl
  | cons hd tl ih =>
    rw [initA_cons, sumBy_cons, ih]
    rfl

/-! ### Arithmetic and list helpers -/

theorem mod_shift_inj (n L j t : Nat) (hj : j < n) (ht : t < n)
    (h : (L + j) % n = (L + t) % n) : j = t := by
  have h2 : j % n = t % n := Nat.ModEq.add_left_cancel' L h
  rwa [Nat.mod_eq_of_lt hj, Nat.mod_eq_of_lt ht] at h2

theorem mod_shift_surj (n L i : Nat) (hn : 0 < n) (hi : i < n) :
    ∃ j, j < n ∧ (L + j) % n = i := by
  have ha : L % n < n := Nat.mod_lt _ hn
  by_cases h : L % n ≤ i
  · refine ⟨i - L % n, by omega, ?_⟩
    have hj : i - L % n < n := by omega
    rw [Nat.add_mod, Nat.mod_eq_of_lt hj]
    have : L % n + (i - L % n) = i := by omega
    rw [this, Nat.mod_eq_of_lt hi]
  · refine ⟨n + i - L % n, by omega, ?_⟩
    have hj : n + i - L % n < n := by omega
    rw [Nat.add_mod, Nat.mod_eq_of_lt hj]
    have : L % n + (n + i - L % n) = n + i := by omega
    rw [this, Nat.add_mod_left, Nat.mod_eq_of_lt hi]

theorem getD_mem {α : Type} (l : List α) (i : Nat) (d : α) (h : i < l.length) :
    l.getD i d ∈ l := by
  rw [List.getD_eq_getElem l d h]
  exact List.getElem_mem h

theorem getD_get {α : Type} (l : List α) (d : α) (i : Nat) (h : i < l.length) :
    l.getD i d = l.get ⟨i, h⟩ := by
  rw [List.getD_eq_getElem l d h]
  rfl

theorem mem_of_mem_enum {α : Type} {l : List α} {ic : Nat × α} (h : ic ∈ l.enum) :
    ic.1 < l.length ∧ ic.2 ∈ l := by
  rw [List.mem_enum_iff_getElem?] at h
  have hlt : ic.1 < l.length := by
    by_contra hge
    rw [List.getElem?_eq_none (by omega)] at h
    exact Option.noConfusion h
  refine ⟨hlt, ?_⟩
  rw [List.getElem?_eq_getElem hlt] at h
  have hm := List.getElem_mem hlt
  injection h with he
  rwa [he] at hm

/-! ### Claim theorems -/

/-- C1: in the three-player run, round 2 is led by Bob, who wins the trick
with BLUE 13 played at trick position 0 (Carl and Alice follow with lower
BLUE cards, and every play succeeds on a legitimately shuffled deck).  The
code nevertheless increments Alice's tricks-won counter and makes Alice the
next leader, because `_determine_trick_winner` indexes the roster by trick
position instead of counting from the leader: feeding the very same
algorithm the roster listed in actual play order names Bob. -/
theorem c1_trick_winner_misattributed :
    List.Perm c1shuffle2 create_deck ∧
    c1g2.current_round = 2 ∧
    c1g2.current_player = some bob ∧
    alookup c1g2.hands bob = some [(Suit.blue, Rank.num 13), (Suit.blue, Rank.num 12)] ∧
    c1p1.2 = none ∧ c1p2.2 = none ∧ c1p3.2 = none ∧
    alookup c1p3.1.tricks_won alice = some 1 ∧
    alookup c1p3.1.tricks_won bob = some 0 ∧
    c1p3.1.current_player = some alice ∧
    determine_trick_winner [bob, carl, alice] c1g2.trump_card
      [(Suit.blue, Rank.num 13), (Suit.blue, Rank.num 4), (Suit.blue, Rank.num 2)] = bob := by
  decide

/-- C2: in the six-player game (10 rounds), every one of the ten
`start_round` calls succeeds, round 9 draws WHITE WIZARD as trump, and after
`start_round` of the final round the trump card is still that very card —
not none: the code assigns `trump_card` only in non-final rounds and never
clears the stale value. -/
theorem c2_final_round_trump_stale :
    ((List.range 10).all (fun k => ((start_round (iterStart g6 k) create_deck).2).isNone))
      = true ∧
    (iterStart g6 10).current_round = 10 ∧
    60 / g6.players.length = 10 ∧
    (iterStart g6 9).trump_card = some (Suit.white, Rank.wizard) ∧
    (iterStart g6 10).trump_card = some (Suit.white, Rank.wizard) ∧
    (iterStart g6 10).trump_card ≠ none := by
  decide

/-- C7: in the final-round state of the six-player run the deck is empty and
all 60 freshly dealt cards sit in the hands with nothing played, yet the
trump slot still holds round 9's stale trump, so the claimed sum
|deck| + |trump| + Σ|hands| + |played| is 61, not 60. -/
theorem c7_deck_invariant_violated_final_round :
    ((List.range 10).all (fun k => ((start_round (iterStart g6 k) create_deck).2).isNone))
      = true ∧
    (iterStart g6 10).current_round = 10 ∧
    (iterStart g6 10).deck.length
      + (if (iterStart g6 10).trump_card.isSome then 1 else 0)
      + sumBy (iterStart g6 10).hands List.length
      + (iterStart g6 10).current_trick.length
      + (iterStart g6 10).players.length * sumBy (iterStart g6 10).tricks_won id = 61 := by
  decide

/-- C3 counterexample: the 11th `start_round` call of the six-player run
fails with `roundLimitExceeded`, yet the state after the failed call carries
round counter 11 where it held 10 before the call — the increment happens
before the validation, so a failing operation does mutate the state. -/
theorem c3_failed_start_round_mutates :
    (start_round (iterStart g6 10) create_deck).2 = some GameErr.roundLimitExceeded ∧
    (iterStart g6 10).current_round = 10 ∧
    (start_round (iterStart g6 10) create_deck).1.current_round = 11 ∧
    (start_round (iterStart g6 10) create_deck).1 ≠ iterStart g6 10 := by
  decide

/-- C4 counterexample: dealing 2 cards to 3 players from the fresh deck, the
source's `_deal_cards` hands Alice the two topmost cards BLUE 1, BLUE 2
(consecutive pops), while the round-robin consumption the claim describes
would hand her BLUE 1, BLUE 4; the hand assignments differ. -/
theorem c4_deal_not_round_robin :
    alookup (deal_cards 2 (initA roster3 []) create_deck roster3).1 alice =
      some [(Suit.blue, Rank.num 1), (Suit.blue, Rank.num 2)] ∧
    alookup (deal_round_robin roster3 2 (initA roster3 []) create_deck).1 alice =
      some [(Suit.blue, Rank.num 1), (Suit.blue, Rank.num 4)] ∧
    (deal_cards 2 (initA roster3 []) create_deck roster3).1 ≠
      (deal_round_robin roster3 2 (initA roster3 []) create_deck).1 := by
  decide

/-- C8 counterexample: in the reachable mid-trick state after Bob leads
BLUE 13 in round 2 of the three-player run, no trick has been resolved yet
but Bob's hand has 1 card, not current_round − tricksResolved = 2. -/
theorem c8_mid_trick_counterexample :
    List.Perm c1shuffle2 create_deck ∧
    c1p1.2 = none ∧
    c1p1.1.current_round = 2 ∧
    sumBy c1p1.1.tricks_won id = 0 ∧
    c1p1.1.current_trick.length = 1 ∧
    ((alookup c1p1.1.hands bob).getD []).length = 1 := by
  decide

/-- The scoring loop raises `keyError` whenever some processed player is
missing from the predictions dictionary (an earlier missing `tricks_won`
entry raises the same `KeyError`). -/
theorem scoreLoop_keyError (preds : List (String × Int)) (tw : List (String × Nat)) :
    ∀ (ps : List String) (scores : List (String × Int)),
      (∃ p ∈ ps, alookup preds p = none) →
      (scoreLoop preds tw ps scores).2 = some GameErr.keyError := by
  intro ps
  induction ps with
  | nil =>
    intro scores h
    simp at h
  | cons hd tl ih =>
    intro scores h
    simp only [scoreLoop]
    cases hp : alookup preds hd with
    | none => rfl
    | some pred =>
      cases ht : alookup tw hd with
      | none => rfl
      | some won =>
        apply ih
        obtain ⟨p, hmem, hnone⟩ := h
        rcases List.mem_cons.mp hmem with rfl | hmem2
        · rw [hp] at hnone
          exact Option.noConfusion hnone
        · exact ⟨p, hmem2, hnone⟩

/-- C10: whenever every hand is empty but some roster player has no recorded
prediction, `calculate_round_scores` fails with the missing-key error, a
failure distinct from the documented `roundNotComplete`. -/
theorem c10_missing_prediction_keyerror (g : GameState)
    (hempty : g.hands.all (fun ph => ph.2.isEmpty) = true)
    (hmiss : ∃ p ∈ g.players, alookup g.predictions p = none) :
    (calculate_round_scores g).2 = some GameErr.keyError ∧
    GameErr.keyError ≠ GameErr.roundNotComplete := by
  refine ⟨?_, by decide⟩
  rw [calculate_round_scores, if_neg (not_not_intro hempty)]
  exact scoreLoop_keyError g.predictions g.tricks_won g.players g.scores hmiss

/-- C10 witness: a three-player state with empty hands where only Alice and
Bob predicted. -/
theorem c10_missing_prediction_witness :
    (calculate_round_scores
        { wizardInit roster3 with predictions := [(alice, 0), (bob, 1)] }).2 =
      some GameErr.keyError ∧
    GameErr.keyError ≠ GameErr.roundNotComplete :=
  c10_missing_prediction_keyerror
    { wizardInit roster3 with predictions := [(alice, 0), (bob, 1)] }
    (by decide) ⟨carl, by decide, by decide⟩

/-- C5: called by the current player with a card from their hand, `play_card`
fails with `mustFollowSuit` exactly when the trick is non-empty, the played
card is not special, the led card is not special, the hand holds a card of
the lead suit, and the played card's suit differs from the lead suit. -/
theorem c5_must_follow_suit_iff (g : GameState) (player : String) (card : Card)
    (hturn : g.current_player = some player)
    (hhand : card ∈ (alookup g.hands player).getD []) :
    (play_card g player card).2 = some GameErr.mustFollowSuit ↔
      (g.current_trick ≠ [] ∧ card.1 ≠ Suit.white ∧
        (g.current_trick.headD default).1 ≠ Suit.white ∧
        (∃ c ∈ (alookup g.hands player).getD [], c.1 = (g.current_trick.headD default).1) ∧
        card.1 ≠ (g.current_trick.headD default).1) := by
  simp only [play_card]
  rw [if_neg (not_not_intro hturn), if_neg (not_not_intro hhand)]
  by_cases hc : (g.current_trick ≠ [] ∧ card.1 ≠ Suit.white ∧
      (g.current_trick.headD default).1 ≠ Suit.white ∧
      (∃ c ∈ (alookup g.hands player).getD [], c.1 = (g.current_trick.headD default).1) ∧
      card.1 ≠ (g.current_trick.headD default).1)
  · rw [if_pos hc]
    exact iff_of_true rfl hc
  · rw [if_neg hc]
    split
    · exact iff_of_false (fun h => Option.noConfusion h) hc
    · exact iff_of_false (fun h => Option.noConfusion h) hc

/-- C5 witness: Carl, on turn with GREEN 2 and BLUE 7 in hand against a
BLUE 13 lead, is refused the GREEN 2. -/
theorem c5_must_follow_suit_witness :
    (play_card
        { wizardInit roster3 with
            current_player := some carl
            current_trick := [(Suit.blue, Rank.num 13)]
            hands := [(alice, []), (bob, []),
              (carl, [(Suit.green, Rank.num 2), (Suit.blue, Rank.num 7)])] }
        carl (Suit.green, Rank.num 2)).2 = some GameErr.mustFollowSuit :=
  (c5_must_follow_suit_iff
      { wizardInit roster3 with
          current_player := some carl
          current_trick := [(Suit.blue, Rank.num 13)]
          hands := [(alice, []), (bob, []),
            (carl, [(Suit.green, Rank.num 2), (Suit.blue, Rank.num 7)])] }
      carl (Suit.green, Rank.num 2) (by decide) (by decide)).mpr (by decide)

/-- A `pickStep` against a special-suit trump coincides with the no-trump
step on any card that is not special-suited. -/
theorem pickStep_white (v : Rank) (acc : Option (Nat × Card)) (ic : Nat × Card)
    (h : ic.2.1 ≠ Suit.white) :
    pickStep (some (Suit.white, v)) acc ic = pickStepNoTrump acc ic := by
  cases acc with
  | none => rfl
  | some wc =>
    simp only [pickStep, pickStepNoTrump]
    rw [if_neg]
    intro hcond
    apply h
    have h1 := hcond.1
    simpa [isTrumpSuit] using h1

/-- The comparison fold against a special-suit trump coincides with the
no-trump fold on a list of non-special cards. -/
theorem foldl_pickStep_white (v : Rank) :
    ∀ (l : List (Nat × Card)) (acc : Option (Nat × Card)),
      (∀ ic ∈ l, ic.2.1 ≠ Suit.white) →
      l.foldl (pickStep (some (Suit.white, v))) acc = l.foldl pickStepNoTrump acc := by
  intro l
  induction l with
  | nil =>
    intro acc _
    rfl
  | cons hd tl ih =>
    intro acc h
    rw [List.foldl_cons, List.foldl_cons, pickStep_white v acc hd (h hd (by simp)),
      ih _ (fun ic hm => h ic (by simp [hm]))]

/-- C9: when the trump card has the special suit (a WIZARD or JESTER was
drawn as trump), trick resolution coincides with trump-less resolution for
every trick made of deck-legal cards (special suit only on WIZARD/JESTER):
wizards resolve by the first-wizard rule, jesters are excluded, and no
compared card can match the special trump suit. -/
theorem c9_special_trump_no_trump (players : List String) (v : Rank) (trick : List Card)
    (hlegal : ∀ c ∈ trick, c.1 = Suit.white → c.2 = Rank.wizard ∨ c.2 = Rank.jester) :
    determine_trick_winner players (some (Suit.white, v)) trick =
      determine_trick_winner_no_trump players trick := by
  simp only [determine_trick_winner, determine_trick_winner_no_trump]
  cases hw : trick.enum.filter (fun ic => isWizard ic.2) with
  | cons hd tl => rfl
  | nil =>
    by_cases hj : trick.all (fun c => isJester c)
    · simp [hj]
    · have hnowiz : ∀ ic ∈ trick.enum, (isWizard ic.2) = false := by
        intro ic hicm
        have := List.filter_eq_nil_iff.mp hw ic hicm
        simpa using this
      have hvalid : ∀ ic ∈ trick.enum.filter (fun ic => ¬ isJester ic.2),
          ic.2.1 ≠ Suit.white := by
        intro ic hm hwhite
        obtain ⟨hm1, hm2⟩ := List.mem_filter.mp hm
        have hmem : ic.2 ∈ trick := (mem_of_mem_enum hm1).2
        rcases hlegal ic.2 hmem hwhite with hwz | hjs
        · have hcontra := hnowiz ic hm1
          simp [isWizard, hwhite, hwz] at hcontra
        · simp [isJester, hwhite, hjs] at hm2
      rw [foldl_pickStep_white v _ none hvalid]

/-- The scoring loop never raises `roundNotComplete`: it returns `none` or
`keyError`. -/
theorem scoreLoop_ne_roundNotComplete (preds : List (String × Int))
    (tw : List (String × Nat)) :
    ∀ (ps : List String) (scores : List (String × Int)),
      (scoreLoop preds tw ps scores).2 ≠ some GameErr.roundNotComplete := by
  intro ps
  induction ps with
  | nil =>
    intro scores h
    exact Option.noConfusion h
  | cons hd tl ih =>
    intro scores
    simp only [scoreLoop]
    cases hp : alookup preds hd with
    | none =>
      intro h
      injection h with h2
      exact GameErr.noConfusion h2
    | some pred =>
      cases ht : alookup tw hd with
      | none =>
        intro h
        injection h with h2
        exact GameErr.noConfusion h2
      | some won => exact ih _

/-- The scoring loop succeeds when every processed player has a prediction
and a tricks-won entry. -/
theorem scoreLoop_none (preds : List (String × Int)) (tw : List (String × Nat)) :
    ∀ (ps : List String) (scores : List (String × Int)),
      (∀ q ∈ ps, (alookup preds q).isSome = true ∧ (alookup tw q).isSome = true) →
      (scoreLoop preds tw ps scores).2 = none := by
  intro ps
  induction ps with
  | nil =>
    intro scores _
    rfl
  | cons hd tl ih =>
    intro scores hall
    simp only [scoreLoop]
    obtain ⟨h1, h2⟩ := hall hd (by simp)
    cases hp : alookup preds hd with
    | none =>
      rw [hp] at h1
      simp at h1
    | some pred =>
      cases ht : alookup tw hd with
      | none =>
        rw [ht] at h2
        simp at h2
      | some won => exact ih _ (fun q hq => hall q (by simp [hq]))

/-- The scoring loop leaves the score entries of unprocessed players
untouched. -/
theorem scoreLoop_frame (preds : List (String × Int)) (tw : List (String × Nat)) :
    ∀ (ps : List String) (scores : List (String × Int)) (q : String), q ∉ ps →
      alookup (scoreLoop preds tw ps scores).1 q = alookup scores q := by
  intro ps
  induction ps with
  | nil =>
    intro scores q _
    rfl
  | cons hd tl ih =>
    intro scores q hq
    rw [List.mem_cons, not_or] at hq
    simp only [scoreLoop]
    cases hp : alookup preds hd with
    | none => rfl
    | some pred =>
      cases ht : alookup tw hd with
      | none => rfl
      | some won =>
        rw [ih _ q hq.2, alookup_updA_ne _ _ _ _ hq.1]

/-- The scoring loop applies the source's formula once to each processed
player's cumulative score. -/
theorem scoreLoop_score (preds : List (String × Int)) (tw : List (String × Nat)) :
    ∀ (ps : List String) (scores : List (String × Int)), ps.Nodup →
      (∀ q ∈ ps, (alookup preds q).isSome = true ∧ (alookup tw q).isSome = true) →
      ∀ p ∈ ps, ∀ (pred : Int) (won : Nat) (s0 : Int),
        alookup preds p = some pred → alookup tw p = some won →
        alookup scores p = some s0 →
        alookup (scoreLoop preds tw ps scores).1 p =
          some (if pred = (won : Int) then s0 + 20 + 10 * (won : Int)
                else s0 - 10 * (((pred - (won : Int)).natAbs : Nat) : Int)) := by
  intro ps
  induction ps with
  | nil =>
    intro scores _ _ p hp
    simp at hp
  | cons hd tl ih =>
    intro scores hnd hall p hp pred won s0 hpred htw hs0
    rw [List.nodup_cons] at hnd
    simp only [scoreLoop]
    obtain ⟨h1, h2⟩ := hall hd (by simp)
    cases hph : alookup preds hd with
    | none =>
      rw [hph] at h1
      simp at h1
    | some predh =>
      cases hth : alookup tw hd with
      | none =>
        rw [hth] at h2
        simp at h2
      | some wonh =>
        rcases List.mem_cons.mp hp with rfl | hptl
        · rw [hph] at hpred
          injection hpred with e1
          subst e1
          rw [hth] at htw
          injection htw with e2
          subst e2
          rw [scoreLoop_frame preds tw tl _ p hnd.1, alookup_updA_self, hs0]
          rfl
        · have hne : p ≠ hd := fun he => hnd.1 (he ▸ hptl)
          rw [ih _ hnd.2 (fun q hq => hall q (by simp [hq])) p hptl pred won s0 hpred htw
            (by rw [alookup_updA_ne _ _ _ _ hne]; exact hs0)]

/-- C6: with every hand empty, a distinct roster, and a recorded prediction
and tricks-won entry for every player, `calculate_round_scores` succeeds and
adds 20 + 10·won to the cumulative score of each player whose prediction
matches and subtracts 10·|pred − won| otherwise; the arithmetic is over
unbounded signed integers, so no clamping at zero occurs. -/
theorem c6_scoring_formula (g : GameState)
    (hnd : g.players.Nodup)
    (hempty : g.hands.all (fun ph => ph.2.isEmpty) = true)
    (hall : ∀ q ∈ g.players,
      (alookup g.predictions q).isSome = true ∧ (alookup g.tricks_won q).isSome = true) :
    (calculate_round_scores g).2 = none ∧
    ∀ p ∈ g.players, ∀ (pred : Int) (won : Nat) (s0 : Int),
      alookup g.predictions p = some pred →
      alookup g.tricks_won p = some won →
      alookup g.scores p = some s0 →
      alookup (calculate_round_scores g).1.scores p =
        some (if pred = (won : Int) then s0 + 20 + 10 * (won : Int)
              else s0 - 10 * (((pred - (won : Int)).natAbs : Nat) : Int)) := by
  constructor
  · rw [calculate_round_scores, if_neg (not_not_intro hempty)]
    exact scoreLoop_none g.predictions g.tricks_won g.players g.scores hall
  · intro p hp pred won s0 hpred htw hs0
    rw [calculate_round_scores, if_neg (not_not_intro hempty)]
    exact scoreLoop_score g.predictions g.tricks_won g.players g.scores hnd hall
      p hp pred won s0 hpred htw hs0

/-- C6 witness: with predictions Alice 2, Bob 0, Carl 1 and no tricks won,
scoring succeeds, Alice's cumulative score becomes −20 (negative, no
clamping) and Bob's becomes +20. -/
theorem c6_scoring_formula_witness :
    (calculate_round_scores
        { wizardInit roster3 with
            predictions := [(alice, 2), (bob, 0), (carl, 1)] }).2 = none ∧
    alookup (calculate_round_scores
        { wizardInit roster3 with
            predictions := [(alice, 2), (bob, 0), (carl, 1)] }).1.scores alice =
      some (-20) ∧
    alookup (calculate_round_scores
        { wizardInit roster3 with
            predictions := [(alice, 2), (bob, 0), (carl, 1)] }).1.scores bob =
      some 20 := by
  have h := c6_scoring_formula
    { wizardInit roster3 with predictions := [(alice, 2), (bob, 0), (carl, 1)] }
    (by decide) (by decide) (by decide)
  refine ⟨h.1, ?_, ?_⟩
  · have ha := h.2 alice (by decide) 2 0 0 (by decide) (by decide) (by decide)
    rw [ha]
    decide
  · have hb := h.2 bob (by decide) 0 0 0 (by decide) (by decide) (by decide)
    rw [hb]
    decide

/-- C3 amended: validation precedes mutation for `make_prediction` and
`play_card` (a failing call returns the state unchanged), the constructor
builds no state on failure, and `calculate_round_scores` leaves the state
unchanged when it fails its round-complete check; but a failing
`start_round` leaves the round counter incremented (its only failure is
`roundLimitExceeded`, raised after the increment). -/
theorem c3_validation_before_mutation_amended :
    (∀ ps : List String, ¬ (3 ≤ ps.length ∧ ps.length ≤ 6) → mkGame ps = none) ∧
    (∀ (g : GameState) (p : String) (t : Int),
      ((make_prediction g p t).2).isSome = true → (make_prediction g p t).1 = g) ∧
    (∀ (g : GameState) (p : String) (c : Card),
      ((play_card g p c).2).isSome = true → (play_card g p c).1 = g) ∧
    (∀ g : GameState, (calculate_round_scores g).2 = some GameErr.roundNotComplete →
      (calculate_round_scores g).1 = g) ∧
    (∀ (g : GameState) (d : List Card), ((start_round g d).2).isSome = true →
      (start_round g d).2 = some GameErr.roundLimitExceeded ∧
      (start_round g d).1 = { g with current_round := g.current_round + 1 }) := by
  refine ⟨?_, ?_, ?_, ?_, ?_⟩
  · intro ps h
    rw [mkGame, if_neg h]
  · intro g p t h
    simp only [make_prediction] at h ⊢
    split_ifs at h ⊢ <;> first | rfl | simp at h
  · intro g p c h
    simp only [play_card] at h ⊢
    split_ifs at h ⊢ <;> first | rfl | simp at h
  · intro g h
    by_cases hhands : ¬ (g.hands.all (fun ph => ph.2.isEmpty))
    · rw [calculate_round_scores, if_pos hhands]
    · rw [calculate_round_scores, if_neg hhands] at h
      exact absurd h (scoreLoop_ne_roundNotComplete g.predictions g.tricks_won g.players g.scores)
  · intro g d h
    simp only [start_round] at h ⊢
    split_ifs at h ⊢ <;> first | exact ⟨rfl, rfl⟩ | simp at h

/-- C3 amended witness: a 2-player creation yields no state, failing
`make_prediction` / `play_card` / `calculate_round_scores` calls leave their
concrete states unchanged, and the failing 11th `start_round` of the
six-player run leaves exactly the incremented round counter. -/
theorem c3_validation_before_mutation_witness :
    mkGame [alice, bob] = none ∧
    (make_prediction (wizardInit roster3) noPlayer 0).1 = wizardInit roster3 ∧
    (play_card (wizardInit roster3) alice (Suit.blue, Rank.num 1)).1 = wizardInit roster3 ∧
    (calculate_round_scores c1g2).1 = c1g2 ∧
    (start_round (iterStart g6 10) create_deck).1 =
      { iterStart g6 10 with current_round := (iterStart g6 10).current_round + 1 } :=
  ⟨c3_validation_before_mutation_amended.1 [alice, bob] (by decide),
   c3_validation_before_mutation_amended.2.1 (wizardInit roster3) noPlayer 0 (by decide),
   c3_validation_before_mutation_amended.2.2.1 (wizardInit roster3) alice
     (Suit.blue, Rank.num 1) (by decide),
   c3_validation_before_mutation_amended.2.2.2.1 c1g2 (by decide),
   (c3_validation_before_mutation_amended.2.2.2.2 (iterStart g6 10) create_deck (by decide)).2⟩

/-- Dealing never changes which players have hand entries. -/
theorem deal_keys (r : Nat) :
    ∀ (ps : List String) (hs : List (String × List Card)) (d : List Card),
      ((deal_cards r hs d ps).1).map Prod.fst = hs.map Prod.fst := by
  intro ps
  induction ps with
  | nil =>
    intro hs d
    rfl
  | cons hd tl ih =>
    intro hs d
    rw [deal_cards, ih, keys_updA]

/-- Dealing consumes exactly `|players| · r` cards off the top of the deck. -/
theorem deal_deck (r : Nat) :
    ∀ (ps : List String) (hs : List (String × List Card)) (d : List Card),
      (deal_cards r hs d ps).2 = d.drop (ps.length * r) := by
  intro ps
  induction ps with
  | nil =>
    intro hs d
    simp [deal_cards]
  | cons hd tl ih =>
    intro hs d
    rw [deal_cards, ih, List.drop_drop, List.length_cons]
    congr 1
    rw [Nat.succ_mul]
    omega

/-- Dealing leaves the hand of a player outside the processed list alone. -/
theorem deal_frame (r : Nat) :
    ∀ (ps : List String) (hs : List (String × List Card)) (d : List Card) (q : String),
      q ∉ ps → alookup (deal_cards r hs d ps).1 q = alookup hs q := by
  intro ps
  induction ps with
  | nil =>
    intro hs d q _
    rfl
  | cons hd tl ih =>
    intro hs d q hq
    rw [List.mem_cons, not_or] at hq
    rw [deal_cards, ih _ _ _ hq.2, alookup_updA_ne _ _ _ _ hq.1]

/-- Dealing assigns the i-th processed player the i-th block of `r`
consecutive cards popped from the deck. -/
theorem deal_lookup (r : Nat) :
    ∀ (ps : List String) (hs : List (String × List Card)) (d : List Card),
      ps.Nodup → (∀ p ∈ ps, (alookup hs p).isSome = true) →
      ∀ i (hi : i < ps.length),
        alookup (deal_cards r hs d ps).1 (ps.get ⟨i, hi⟩) =
          some ((d.drop (i * r)).take r) := by
  intro ps
  induction ps with
  | nil =>
    intro hs d _ _ i hi
    simp at hi
  | cons hd tl ih =>
    intro hs d hnd hsome i hi
    rw [List.nodup_cons] at hnd
    match i with
    | 0 =>
      have hh := hsome hd (by simp)
      rw [show (hd :: tl).get ⟨0, hi⟩ = hd from rfl, deal_cards,
        deal_frame r tl _ _ hd hnd.1, alookup_updA_self]
      cases hv : alookup hs hd with
      | none =>
        rw [hv] at hh
        simp at hh
      | some v => simp
    | i + 1 =>
      rw [show (hd :: tl).get ⟨i + 1, hi⟩ = tl.get ⟨i, by simpa using hi⟩ from rfl,
        deal_cards]
      rw [ih _ _ hnd.2 ?_ i (by simpa using hi)]
      · rw [List.drop_drop, show r + i * r = (i + 1) * r from by rw [Nat.succ_mul]; omega]
      · intro p hp
        rw [alookup_isSome_iff_mem_keys, keys_updA, ← alookup_isSome_iff_mem_keys]
        exact hsome p (by simp [hp])

/-- C4 amended: for a distinct roster, `_deal_cards` consumes the deck in
per-player blocks — the player at roster position i receives the i-th block
of `r` consecutively popped cards, and the deck loses its top
`|players| · r` cards. -/
theorem c4_deal_consecutive_blocks (players : List String) (r : Nat) (deck : List Card)
    (hnd : players.Nodup) :
    (∀ i (hi : i < players.length),
      alookup (deal_cards r (initA players []) deck players).1 (players.get ⟨i, hi⟩) =
        some ((deck.drop (i * r)).take r)) ∧
    (deal_cards r (initA players []) deck players).2 = deck.drop (players.length * r) := by
  constructor
  · intro i hi
    exact deal_lookup r players (initA players []) deck hnd
      (fun p hp => by rw [alookup_initA players [] p hp]; rfl) i hi
  · exact deal_deck r players (initA players []) deck

/-- C4 amended witness: dealing 2 cards to the three-player roster from the
fresh deck gives Bob (roster position 1) the second block BLUE 3, BLUE 4 and
drops 6 cards from the deck. -/
theorem c4_deal_consecutive_blocks_witness :
    alookup (deal_cards 2 (initA roster3 []) create_deck roster3).1 bob =
      some ((create_deck.drop (1 * 2)).take 2) ∧
    (deal_cards 2 (initA roster3 []) create_deck roster3).2 =
      create_deck.drop (roster3.length * 2) :=
  ⟨(c4_deal_consecutive_blocks roster3 2 create_deck (by decide)).1 1 (by decide),
   (c4_deal_consecutive_blocks roster3 2 create_deck (by decide)).2⟩

/-- C9 witness: a trick of BLUE 5, JESTER, BLUE 9 resolved under a WIZARD
trump equals its trump-less resolution. -/
theorem c9_special_trump_witness :
    determine_trick_winner roster3 (some (Suit.white, Rank.wizard))
        [(Suit.blue, Rank.num 5), (Suit.white, Rank.jester), (Suit.blue, Rank.num 9)] =
      determine_trick_winner_no_trump roster3
        [(Suit.blue, Rank.num 5), (Suit.white, Rank.jester), (Suit.blue, Rank.num 9)] :=
  c9_special_trump_no_trump roster3 Rank.wizard
    [(Suit.blue, Rank.num 5), (Suit.white, Rank.jester), (Suit.blue, Rank.num 9)]
    (by decide)

/-! ### The hand-length invariant (claim C8) -/

theorem playedInTrick_zero (n L i : Nat) : playedInTrick n L 0 i = false := rfl

theorem playedInTrick_succ (n L t i : Nat) :
    playedInTrick n L (t + 1) i =
      (playedInTrick n L t i || decide ((L + t) % n = i)) := by
  simp [playedInTrick, List.range_succ]

/-- The mid-trick contributor test is off for the position whose turn it is. -/
theorem playedInTrick_self (n L t : Nat) (ht : t < n) :
    playedInTrick n L t ((L + t) % n) = false := by
  rw [playedInTrick]
  by_contra h
  rw [Bool.not_eq_false, List.any_eq_true] at h
  obtain ⟨j, hj, he⟩ := h
  rw [List.mem_range] at hj
  rw [decide_eq_true_iff] at he
  have := mod_shift_inj n L j t (by omega) ht he
  omega

/-- With a full trick minus one card, every position other than the one on
turn has already contributed. -/
theorem playedInTrick_other (n L t i : Nat) (_hL : L < n) (hi : i < n)
    (ht : t + 1 = n) (hne : i ≠ (L + t) % n) :
    playedInTrick n L t i = true := by
  obtain ⟨j, hj, he⟩ := mod_shift_surj n L i (by omega) hi
  have hjt : j ≠ t := fun hjt => hne (by rw [← he, hjt])
  rw [playedInTrick, List.any_eq_true]
  exact ⟨j, List.mem_range.mpr (by omega), by rw [decide_eq_true_iff]; exact he⟩

/-- The fields of a successful `start_round`. -/
theorem start_round_succ_fields (g : GameState) (d : List Card)
    (hc : ¬ 60 / g.players.length < g.current_round + 1) :
    (start_round g d).1.players = g.players ∧
    (start_round g d).1.current_round = g.current_round + 1 ∧
    (start_round g d).1.tricks_won = initA g.players 0 ∧
    (start_round g d).1.current_trick = [] ∧
    (start_round g d).1.hands =
      (deal_cards (g.current_round + 1) (initA g.players []) d g.players).1 ∧
    (start_round g d).1.current_player =
      some (g.players.getD (g.current_round % g.players.length) noPlayer) ∧
    (start_round g d).2 = none := by
  simp only [start_round, if_neg hc]
  simp

/-- A failing `play_card` returns the state unchanged. -/
theorem play_card_fail (g : GameState) (p : String) (c : Card)
    (h : ((play_card g p c).2).isSome = true) : (play_card g p c).1 = g :=
  c3_validation_before_mutation_amended.2.2.1 g p c h

/-- The state written by a `play_card` that completes the trick. -/
theorem play_card_complete (g : GameState) (p : String) (c : Card)
    (h1 : ¬ g.current_player ≠ some p)
    (h2 : ¬ c ∉ (alookup g.hands p).getD [])
    (h3 : ¬ (g.current_trick ≠ [] ∧ c.1 ≠ Suit.white ∧
      (g.current_trick.headD default).1 ≠ Suit.white ∧
      (∃ x ∈ (alookup g.hands p).getD [], x.1 = (g.current_trick.headD default).1) ∧
      c.1 ≠ (g.current_trick.headD default).1))
    (h4 : (g.current_trick ++ [c]).length = g.players.length) :
    play_card g p c =
      ({ g with
          hands := updA g.hands p (fun h => h.erase c)
          current_trick := []
          tricks_won := updA g.tricks_won
            (determine_trick_winner g.players g.trump_card (g.current_trick ++ [c]))
            (fun n => n + 1)
          current_player :=
            some (determine_trick_winner g.players g.trump_card
              (g.current_trick ++ [c])) }, none) := by
  simp only [play_card, if_neg h1, if_neg h2, if_neg h3, if_pos h4]

/-- The state written by a `play_card` that leaves the trick unfinished. -/
theorem play_card_open (g : GameState) (p : String) (c : Card)
    (h1 : ¬ g.current_player ≠ some p)
    (h2 : ¬ c ∉ (alookup g.hands p).getD [])
    (h3 : ¬ (g.current_trick ≠ [] ∧ c.1 ≠ Suit.white ∧
      (g.current_trick.headD default).1 ≠ Suit.white ∧
      (∃ x ∈ (alookup g.hands p).getD [], x.1 = (g.current_trick.headD default).1) ∧
      c.1 ≠ (g.current_trick.headD default).1))
    (h4 : ¬ (g.current_trick ++ [c]).length = g.players.length) :
    play_card g p c =
      ({ g with
          hands := updA g.hands p (fun h => h.erase c)
          current_trick := g.current_trick ++ [c]
          current_player :=
            some (g.players.getD ((g.players.indexOf p + 1) % g.players.length)
              noPlayer) }, none) := by
  simp only [play_card, if_neg h1, if_neg h2, if_neg h3, if_neg h4]

/-- The comparison fold only ever returns its initial accumulator or one of
the folded entries. -/
theorem foldl_pickStep_mem (trump : Option Card) :
    ∀ (l : List (Nat × Card)) (acc : Option (Nat × Card)) (w : Nat × Card),
      l.foldl (pickStep trump) acc = some w → acc = some w ∨ w ∈ l := by
  intro l
  induction l with
  | nil =>
    intro acc w h
    exact Or.inl h
  | cons hd tl ih =>
    intro acc w h
    rw [List.foldl_cons] at h
    rcases ih (pickStep trump acc hd) w h with hstep | hmem
    · cases acc with
      | none =>
        rw [show pickStep trump none hd = some hd from rfl] at hstep
        injection hstep with he
        exact Or.inr (by rw [← he]; exact List.mem_cons_self _ _)
      | some wc =>
        rw [show pickStep trump (some wc) hd =
            (if isTrumpSuit trump hd.2.1 ∧ ¬ isTrumpSuit trump wc.2.1 then some hd
             else if hd.2.1 = wc.2.1 ∧ rankGt hd.2.2 wc.2.2 then some hd
             else some wc) from rfl] at hstep
        split_ifs at hstep <;>
          first
            | exact Or.inr (by injection hstep with he; rw [← he]; exact List.mem_cons_self _ _)
            | exact Or.inl hstep
    · exact Or.inr (List.mem_cons_of_mem _ hmem)

/-- The trick winner returned by the source algorithm is a roster member
whenever the trick is as long as the roster. -/
theorem determine_trick_winner_mem (players : List String) (trump : Option Card)
    (trick : List Card) (hn : 0 < players.length)
    (htr : trick.length = players.length) :
    determine_trick_winner players trump trick ∈ players := by
  rw [determine_trick_winner]
  cases hw : trick.enum.filter (fun ic => isWizard ic.2) with
  | cons iw tl =>
    have hiw : iw ∈ trick.enum.filter (fun ic => isWizard ic.2) := by
      rw [hw]
      exact List.mem_cons_self _ _
    have := (mem_of_mem_enum (List.mem_filter.mp hiw).1).1
    exact getD_mem _ _ _ (by omega)
  | nil =>
    by_cases hj : trick.all (fun c => isJester c)
    · rw [if_pos hj]
      exact getD_mem _ _ _ hn
    · rw [if_neg hj]
      cases hf : (trick.enum.filter (fun ic => ¬ isJester ic.2)).foldl (pickStep trump) none with
      | none => exact getD_mem _ _ _ hn
      | some w =>
        rcases foldl_pickStep_mem trump _ none w hf with habs | hmem
        · exact Option.noConfusion habs
        · have := (mem_of_mem_enum (List.mem_filter.mp hmem).1).1
          exact getD_mem _ _ _ (by omega)

/-- `wizardInit` establishes the invariant. -/
theorem inv_wizardInit (players : List String) (hnd : players.Nodup)
    (h3 : 3 ≤ players.length) : Inv (wizardInit players) := by
  refine ⟨h3, hnd, keys_initA _ _, keys_initA _ _,
    (by show 0 < players.length; omega), ?_, ?_⟩
  · intro p h
    exact Option.noConfusion h
  · intro h1
    exact absurd (show (1 : Nat) ≤ 0 from h1) (by omega)

/-- `start_round` preserves the invariant when fed a full 60-card deck. -/
theorem inv_start_round (g : GameState) (d : List Card) (hI : Inv g)
    (hlen : d.length = 60) : Inv (start_round g d).1 := by
  have hn : 0 < g.players.length := by have := hI.pl_lb; omega
  by_cases hc : 60 / g.players.length < g.current_round + 1
  · have heq : (start_round g d).1 = { g with current_round := g.current_round + 1 } := by
      simp only [start_round, if_pos hc]
    rw [heq]
    refine ⟨hI.pl_lb, hI.pl_nd, hI.hands_keys, hI.tw_keys, hI.trick_lt, hI.cp_mem, ?_⟩
    intro _ h2
    exact absurd (show g.current_round + 1 ≤ 60 / g.players.length from h2) (by omega)
  · obtain ⟨hp, hr, htw, htr, hh, hcp, _⟩ := start_round_succ_fields g d hc
    refine ⟨?_, ?_, ?_, ?_, ?_, ?_, ?_⟩
    · rw [hp]
      exact hI.pl_lb
    · rw [hp]
      exact hI.pl_nd
    · rw [hh, hp, deal_keys, keys_initA]
    · rw [htw, hp, keys_initA]
    · rw [htr, hp]
      simpa using hn
    · intro q hq
      rw [hcp] at hq
      injection hq with he
      rw [hp, ← he]
      exact getD_mem _ _ _ (Nat.mod_lt _ hn)
    · rw [hp, hr, htw, htr, hh, hcp]
      intro h1 h2
      refine ⟨g.current_round % g.players.length, Nat.mod_lt _ hn, ?_, ?_⟩
      · rw [List.length_nil, Nat.add_zero, Nat.mod_eq_of_lt (Nat.mod_lt _ hn)]
      · intro i hi
        rw [sumBy_initA_zero, List.length_nil, playedInTrick_zero, if_neg (by simp),
          getD_get _ _ _ hi,
          deal_lookup (g.current_round + 1) g.players (initA g.players []) d hI.pl_nd
            (fun q hq => by rw [alookup_initA _ _ _ hq]; rfl) i hi]
        have hmul : (i + 1) * (g.current_round + 1) ≤
            g.players.length * (g.current_round + 1) :=
          Nat.mul_le_mul_right _ (by omega)
        have hmul2 : g.players.length * (g.current_round + 1) ≤ 60 := by
          calc g.players.length * (g.current_round + 1)
              ≤ g.players.length * (60 / g.players.length) := Nat.mul_le_mul_left _ h2
            _ = (60 / g.players.length) * g.players.length := Nat.mul_comm _ _
            _ ≤ 60 := Nat.div_mul_le_self 60 _
        have hbound : i * (g.current_round + 1) + (g.current_round + 1) ≤ 60 := by
          rw [← Nat.succ_mul]
          exact hmul.trans hmul2
        simp only [Option.getD_some, List.length_take, List.length_drop, hlen]
        omega

/-- `make_prediction` preserves the invariant. -/
theorem inv_make_prediction (g : GameState) (p : String) (t : Int) (hI : Inv g) :
    Inv (make_prediction g p t).1 := by
  simp only [make_prediction]
  split_ifs <;>
    exact ⟨hI.pl_lb, hI.pl_nd, hI.hands_keys, hI.tw_keys, hI.trick_lt, hI.cp_mem, hI.hand_len⟩

/-- Field equations of a trick-completing `play_card`. -/
theorem play_card_complete_fields (g : GameState) (p : String) (c : Card)
    (h1 : ¬ g.current_player ≠ some p)
    (h2 : ¬ c ∉ (alookup g.hands p).getD [])
    (h3 : ¬ (g.current_trick ≠ [] ∧ c.1 ≠ Suit.white ∧
      (g.current_trick.headD default).1 ≠ Suit.white ∧
      (∃ x ∈ (alookup g.hands p).getD [], x.1 = (g.current_trick.headD default).1) ∧
      c.1 ≠ (g.current_trick.headD default).1))
    (h4 : (g.current_trick ++ [c]).length = g.players.length) :
    (play_card g p c).1.players = g.players ∧
    (play_card g p c).1.current_round = g.current_round ∧
    (play_card g p c).1.hands = updA g.hands p (fun h => h.erase c) ∧
    (play_card g p c).1.current_trick = [] ∧
    (play_card g p c).1.tricks_won = updA g.tricks_won
      (determine_trick_winner g.players g.trump_card (g.current_trick ++ [c]))
      (fun n => n + 1) ∧
    (play_card g p c).1.current_player =
      some (determine_trick_winner g.players g.trump_card (g.current_trick ++ [c])) := by
  rw [play_card_complete g p c h1 h2 h3 h4]
  exact ⟨rfl, rfl, rfl, rfl, rfl, rfl⟩

/-- Field equations of a `play_card` that leaves the trick unfinished. -/
theorem play_card_open_fields (g : GameState) (p : String) (c : Card)
    (h1 : ¬ g.current_player ≠ some p)
    (h2 : ¬ c ∉ (alookup g.hands p).getD [])
    (h3 : ¬ (g.current_trick ≠ [] ∧ c.1 ≠ Suit.white ∧
      (g.current_trick.headD default).1 ≠ Suit.white ∧
      (∃ x ∈ (alookup g.hands p).getD [], x.1 = (g.current_trick.headD default).1) ∧
      c.1 ≠ (g.current_trick.headD default).1))
    (h4 : ¬ (g.current_trick ++ [c]).length = g.players.length) :
    (play_card g p c).1.players = g.players ∧
    (play_card g p c).1.current_round = g.current_round ∧
    (play_card g p c).1.hands = updA g.hands p (fun h => h.erase c) ∧
    (play_card g p c).1.current_trick = g.current_trick ++ [c] ∧
    (play_card g p c).1.tricks_won = g.tricks_won ∧
    (play_card g p c).1.current_player =
      some (g.players.getD ((g.players.indexOf p + 1) % g.players.length) noPlayer) := by
  rw [play_card_open g p c h1 h2 h3 h4]
  exact ⟨rfl, rfl, rfl, rfl, rfl, rfl⟩

/-- `play_card` preserves the invariant. -/
theorem inv_play_card (g : GameState) (p : String) (c : Card) (hI : Inv g) :
    Inv (play_card g p c).1 := by
  have hn : 0 < g.players.length := by have := hI.pl_lb; omega
  by_cases h1 : g.current_player ≠ some p
  · have heq : play_card g p c = (g, some GameErr.notPlayersTurn) := by
      simp only [play_card, if_pos h1]
    rw [heq]
    exact hI
  by_cases h2 : c ∉ (alookup g.hands p).getD []
  · have heq : play_card g p c = (g, some GameErr.cardNotInHand) := by
      simp only [play_card, if_neg h1, if_pos h2]
    rw [heq]
    exact hI
  by_cases h3 : (g.current_trick ≠ [] ∧ c.1 ≠ Suit.white ∧
      (g.current_trick.headD default).1 ≠ Suit.white ∧
      (∃ x ∈ (alookup g.hands p).getD [], x.1 = (g.current_trick.headD default).1) ∧
      c.1 ≠ (g.current_trick.headD default).1)
  · have heq : play_card g p c = (g, some GameErr.mustFollowSuit) := by
      simp only [play_card, if_neg h1, if_neg h2, if_pos h3]
    rw [heq]
    exact hI
  have hpmem : p ∈ g.players := hI.cp_mem p (not_not.mp h1)
  have hcmem : c ∈ (alookup g.hands p).getD [] := not_not.mp h2
  obtain ⟨h0, hh0, hch0⟩ : ∃ h0, alookup g.hands p = some h0 ∧ c ∈ h0 := by
    cases hv : alookup g.hands p with
    | none =>
      rw [hv] at hcmem
      simp at hcmem
    | some h0 =>
      rw [hv] at hcmem
      exact ⟨h0, rfl, hcmem⟩
  have hlen0 : (h0.erase c).length = h0.length - 1 := List.length_erase_of_mem hch0
  have hpos0 : 0 < h0.length := List.length_pos.mpr (List.ne_nil_of_mem hch0)
  by_cases h4 : (g.current_trick ++ [c]).length = g.players.length
  · -- the trick completes and is resolved
    obtain ⟨hfp, hfr, hfh, hft, hftw, hfcp⟩ := play_card_complete_fields g p c h1 h2 h3 h4
    set w := determine_trick_winner g.players g.trump_card (g.current_trick ++ [c]) with hw
    have hwmem : w ∈ g.players :=
      determine_trick_winner_mem g.players g.trump_card (g.current_trick ++ [c]) hn h4
    obtain ⟨w0, hw0⟩ : ∃ w0, alookup g.tricks_won w = some w0 := by
      have hs := (alookup_isSome_iff_mem_keys g.tricks_won w).mpr
        (by rw [hI.tw_keys]; exact hwmem)
      cases hv : alookup g.tricks_won w with
      | none =>
        rw [hv] at hs
        simp at hs
      | some w0 => exact ⟨w0, rfl⟩
    have htsum : sumBy (updA g.tricks_won w (fun n => n + 1)) id =
        sumBy g.tricks_won id + 1 := by
      have hs := sumBy_updA g.tricks_won w (fun n => n + 1) id w0
        (by rw [hI.tw_keys]; exact hI.pl_nd) hw0
      simp only [id_eq] at hs
      omega
    refine ⟨?_, ?_, ?_, ?_, ?_, ?_, ?_⟩
    · rw [hfp]
      exact hI.pl_lb
    · rw [hfp]
      exact hI.pl_nd
    · rw [hfh, hfp, keys_updA]
      exact hI.hands_keys
    · rw [hftw, hfp, keys_updA]
      exact hI.tw_keys
    · rw [hft, hfp]
      simpa using hn
    · intro q hq
      rw [hfcp] at hq
      injection hq with he
      rw [hfp, ← he]
      exact hwmem
    · rw [hfp, hfr, hfh, hft, hftw, hfcp]
      intro hr1 hr2
      obtain ⟨L, hL, hcpL, hall⟩ := hI.hand_len hr1 hr2
      have ht1 : g.current_trick.length + 1 = g.players.length := by simpa using h4
      have hpi : p = g.players.getD
          ((L + g.current_trick.length) % g.players.length) noPlayer :=
        Option.some.inj ((not_not.mp h1).symm.trans hcpL)
      have hidxlt : g.players.indexOf w < g.players.length :=
        List.indexOf_lt_length.mpr hwmem
      refine ⟨g.players.indexOf w, hidxlt, ?_, ?_⟩
      · rw [List.length_nil, Nat.add_zero, Nat.mod_eq_of_lt hidxlt,
          getD_get _ _ _ hidxlt, List.indexOf_get hidxlt]
      · intro i hi
        rw [htsum, List.length_nil, playedInTrick_zero, if_neg (by simp)]
        by_cases hipi : i = (L + g.current_trick.length) % g.players.length
        · subst hipi
          rw [← hpi, alookup_updA_self, hh0]
          have hold := hall ((L + g.current_trick.length) % g.players.length)
            (Nat.mod_lt _ hn)
          rw [← hpi, playedInTrick_self _ _ _ hI.trick_lt, if_neg (by simp), hh0] at hold
          simp only [Option.map_some', Option.getD_some] at hold ⊢
          omega
        · have hkey : g.players.getD i noPlayer ≠ p := by
            rw [hpi, getD_get _ _ _ hi, getD_get _ _ _ (Nat.mod_lt _ hn)]
            intro he
            exact hipi (congrArg Fin.val ((hI.pl_nd.get_inj_iff).mp he))
          rw [alookup_updA_ne _ _ _ _ hkey]
          have hold := hall i hi
          rw [playedInTrick_other _ _ _ _ hL hi ht1 hipi, if_pos rfl] at hold
          omega
  · -- the trick stays open and the turn advances
    obtain ⟨hfp, hfr, hfh, hft, hftw, hfcp⟩ := play_card_open_fields g p c h1 h2 h3 h4
    have ht1 : g.current_trick.length + 1 ≠ g.players.length := by
      intro he
      exact h4 (by simpa using he)
    refine ⟨?_, ?_, ?_, ?_, ?_, ?_, ?_⟩
    · rw [hfp]
      exact hI.pl_lb
    · rw [hfp]
      exact hI.pl_nd
    · rw [hfh, hfp, keys_updA]
      exact hI.hands_keys
    · rw [hftw, hfp]
      exact hI.tw_keys
    · rw [hft, hfp]
      have := hI.trick_lt
      simp only [List.length_append, List.length_cons, List.length_nil]
      omega
    · intro q hq
      rw [hfcp] at hq
      injection hq with he
      rw [hfp, ← he]
      exact getD_mem _ _ _ (Nat.mod_lt _ hn)
    · rw [hfp, hfr, hfh, hft, hftw, hfcp]
      intro hr1 hr2
      obtain ⟨L, hL, hcpL, hall⟩ := hI.hand_len hr1 hr2
      have hpi : p = g.players.getD
          ((L + g.current_trick.length) % g.players.length) noPlayer :=
        Option.some.inj ((not_not.mp h1).symm.trans hcpL)
      have hmodlt : (L + g.current_trick.length) % g.players.length < g.players.length :=
        Nat.mod_lt _ hn
      have hidx : g.players.indexOf p = (L + g.current_trick.length) % g.players.length := by
        have hplt : g.players.indexOf p < g.players.length :=
          List.indexOf_lt_length.mpr hpmem
        have hget1 : g.players.get ⟨g.players.indexOf p, hplt⟩ = p :=
          List.indexOf_get hplt
        have hget2 : g.players.get ⟨(L + g.current_trick.length) % g.players.length,
            hmodlt⟩ = p := by
          rw [← getD_get _ _ _ hmodlt, ← hpi]
        exact congrArg Fin.val ((hI.pl_nd.get_inj_iff).mp (hget1.trans hget2.symm))
      have hlapp : (g.current_trick ++ [c]).length = g.current_trick.length + 1 := by
        simp
      refine ⟨L, hL, ?_, ?_⟩
      · rw [hidx, hlapp, Nat.mod_add_mod, Nat.add_assoc]
      · intro i hi
        rw [hlapp]
        by_cases hipi : i = (L + g.current_trick.length) % g.players.length
        · subst hipi
          rw [← hpi, alookup_updA_self, hh0]
          have hold := hall ((L + g.current_trick.length) % g.players.length)
            (Nat.mod_lt _ hn)
          rw [← hpi, playedInTrick_self _ _ _ hI.trick_lt, if_neg (by simp), hh0] at hold
          rw [playedInTrick_succ, playedInTrick_self _ _ _ hI.trick_lt,
            if_pos (by simp)]
          simp only [Option.map_some', Option.getD_some] at hold ⊢
          omega
        · have hkey : g.players.getD i noPlayer ≠ p := by
            rw [hpi, getD_get _ _ _ hi, getD_get _ _ _ hmodlt]
            intro he
            exact hipi (congrArg Fin.val ((hI.pl_nd.get_inj_iff).mp he))
          rw [alookup_updA_ne _ _ _ _ hkey]
          have hold := hall i hi
          rw [playedInTrick_succ,
            show (decide ((L + g.current_trick.length) % g.players.length = i)) = false
              from decide_eq_false (fun he => hipi he.symm),
            Bool.or_false]
          exact hold

/-- `calculate_round_scores` preserves the invariant. -/
theorem inv_calculate_round_scores (g : GameState) (hI : Inv g) :
    Inv (calculate_round_scores g).1 := by
  simp only [calculate_round_scores]
  split_ifs <;>
    exact ⟨hI.pl_lb, hI.pl_nd, hI.hands_keys, hI.tw_keys, hI.trick_lt, hI.cp_mem, hI.hand_len⟩

/-- Every reachable state satisfies the structural invariant. -/
theorem reachable_inv (g : GameState) (h : Reachable g) : Inv g := by
  induction h with
  | create players g' hnd hmk =>
    rw [mkGame] at hmk
    split_ifs at hmk with hcnt
    injection hmk with he
    rw [← he]
    exact inv_wizardInit players hnd hcnt.1
  | startRound g' d hp _ ih =>
    exact inv_start_round g' d ih (hp.length_eq.trans (by rfl))
  | makePrediction g' p t _ ih => exact inv_make_prediction g' p t ih
  | playCard g' p c _ ih => exact inv_play_card g' p c ih
  | calcScores g' _ ih => exact inv_calculate_round_scores g' ih

/-- C8 amended: in every reachable state whose round counter lies inside the
playable range, there is a leader position L with the current player sitting
`|trick|` seats after L, and every player's hand length plus the number of
resolved tricks (the sum of all tricks-won counters), plus one exactly if
that player has already fed the trick in progress, equals the round number.
In particular the claimed equality hand length = round − resolved holds
precisely for the players who have not yet played to the open trick — at
trick boundaries (empty trick) it holds for everyone. -/
theorem c8_hand_length_amended (s : GameState) (h : Reachable s)
    (h1 : 1 ≤ s.current_round) (h2 : s.current_round ≤ 60 / s.players.length) :
    ∃ L, L < s.players.length ∧
      s.current_player =
        some (s.players.getD ((L + s.current_trick.length) % s.players.length) noPlayer) ∧
      ∀ i, i < s.players.length →
        ((alookup s.hands (s.players.getD i noPlayer)).getD []).length
          + sumBy s.tricks_won id
          + (if playedInTrick s.players.length L s.current_trick.length i then 1 else 0)
          = s.current_round :=
  (reachable_inv s h).hand_len h1 h2

/-- C8 amended witness: the invariant instantiated at the reachable state
after `start_round` of round 1 in a fresh three-player game. -/
theorem c8_hand_length_witness :
    ∃ L, L < (start_round (wizardInit roster3) create_deck).1.players.length ∧
      (start_round (wizardInit roster3) create_deck).1.current_player =
        some ((start_round (wizardInit roster3) create_deck).1.players.getD
          ((L + (start_round (wizardInit roster3) create_deck).1.current_trick.length) %
            (start_round (wizardInit roster3) create_deck).1.players.length) noPlayer) ∧
      ∀ i, i < (start_round (wizardInit roster3) create_deck).1.players.length →
        ((alookup (start_round (wizardInit roster3) create_deck).1.hands
            ((start_round (wizardInit roster3) create_deck).1.players.getD i noPlayer)).getD
              []).length
          + sumBy (start_round (wizardInit roster3) create_deck).1.tricks_won id
          + (if playedInTrick (start_round (wizardInit roster3) create_deck).1.players.length
                L (start_round (wizardInit roster3) create_deck).1.current_trick.length i
              then 1 else 0)
          = (start_round (wizardInit roster3) create_deck).1.current_round :=
  c8_hand_length_amended (start_round (wizardInit roster3) create_deck).1
    (Reachable.startRound (wizardInit roster3) create_deck (List.Perm.refl _)
      (Reachable.create roster3 (wizardInit roster3) (by decide) (by decide)))
    (by decide) (by decide)

end Wizard
